import Mathlib

/-!
Shallow embedding of the probe-scheduling and decision-caching engine of the
Loon Sub-Store check scripts (src/script/claude.js; src/script/gpt.js and the
first operator of src/script/gemini.js share the identical structure, differing
only in cache-key prefix strings and the classifier endpoints).

Conventions of the embedding:
* JS numbers that are used as integers (status codes, tries, runs, maxTries,
  maxRuns) become `Int`; the 32-bit wrap-around of the batch hash is written
  with an explicit `% 2 ^ 32`.
* A JS object property that is read through a `typeof x === 'number'` guard is
  an `Option Int`; a property read through `=== true` is a `Bool` whose value
  records whether the stored field is exactly `true`.
* `Date.now()` values written into `ts` fields are never read back by any of
  the scripts, so a single clock value `Config.now` stands for all of them.
* The external cache (`scriptResourceCache`) is an association list keyed by
  the literal key strings the script builds.  Decision records are stored
  under keys starting with the text claude_check_standalone_v4 and batch meta
  records under keys starting with claude_check_batch_v2; the two key spaces
  are disjoint in the source, so the store keeps them in two association
  lists.
* The compiled deny regular expression (`compileDenyRegex`) is modelled by its
  test predicate `String → Bool`; `new RegExp` failure / absent argument is
  the `none` case.
-/

namespace Loon

/-- A JSON-serializable field value of a proxy object (`JSON.stringify`
distinguishes strings, numbers and booleans). -/
inductive PVal where
  | str (s : String)
  | num (n : Int)
  | bool (b : Bool)
deriving DecidableEq, Repr

/-- A proxy node: its `Object.entries` view, in property order. -/
structure Proxy where
  fields : List (String × PVal)
deriving DecidableEq, Repr

/-- `proxy.name || ''` — the display label, empty when absent or not a
string. -/
def Proxy.nameOf (p : Proxy) : String :=
  match (p.fields.find? (fun e => e.1 == ("name"))).map (·.2) with
  | some (PVal.str s) => s
  | _ => ""

/-- `toLowerCase`, character by character (the keys and names the scripts
lowercase are ASCII, where JS and `Char.toLower` agree). -/
def jsToLower (s : String) : String :=
  String.mk (s.data.map Char.toLower)

/-- The code-unit lexicographic comparison underlying the JS string order
(default `Array.prototype.sort` and the key comparator): smaller first
differing character wins, a proper prefix precedes. -/
def lexLeChars : List Char → List Char → Bool
  | [], _ => true
  | _ :: _, [] => false
  | a :: as, b :: bs =>
    if a < b then true else if b < a then false else lexLeChars as bs

def lexLe (a b : String) : Bool :=
  lexLeChars a.data b.data

/-- The volatile-key filter of `getFingerprint`:
`/^(name|collectionName|subName|id|_.*)$/i`. -/
def isVolatileKey (k : String) : Bool :=
  let l := jsToLower k
  l == ("name") || l == ("collectionname") || l == ("subname") ||
    l == ("id") || List.isPrefixOf (("_").data) l.data

/-- Escape of one character inside a JSON string literal (`JSON.stringify`
escapes quotes, backslashes and the common control characters in field
values). -/
def jsonEscapeChar (c : Char) : String :=
  if c = '\"' then "\\\""
  else if c = '\\' then "\\\\"
  else if c = '\n' then "\\n"
  else if c = '\t' then "\\t"
  else if c = '\r' then "\\r"
  else String.singleton c

/-- A JSON string literal. -/
def jsonQuote (s : String) : String :=
  "\"" ++ String.join (s.data.map jsonEscapeChar) ++ "\""

/-- Serialization of one field value, as `JSON.stringify` renders it. -/
def encodePVal : PVal → String
  | PVal.str s => jsonQuote s
  | PVal.num n => toString n
  | PVal.bool b => if b then "true" else "false"

/-- `JSON.stringify(Object.fromEntries(entries))` over a list of entries
(kept in list order). -/
def encodeEntries (l : List (String × PVal)) : String :=
  "\x7b" ++
    String.intercalate (",") (l.map (fun e => jsonQuote e.1 ++ ":" ++ encodePVal e.2)) ++
    "\x7d"

/-- `getFingerprint(proxy)` — drop volatile keys, sort the remaining entries
by key, serialize (src/script/claude.js lines 290-295; `localeCompare` on the
keys is modelled by the lexicographic order on `String`). -/
def getFingerprint (p : Proxy) : String :=
  encodeEntries
    (List.insertionSort (fun a b => lexLe a.1 b.1 = true)
      (p.fields.filter (fun e => !isVolatileKey e.1)))

/-- `getProxyCacheKey(proxy)` (claude.js line 268-271). -/
def getProxyCacheKey (p : Proxy) : String :=
  "claude_check_standalone_v4:" ++ getFingerprint p

/-- One step of `hashStrings`: `h = ((h << 5) + h) ^ s.charCodeAt(i);
h = h >>> 0` — i.e. multiply by 33 modulo 2^32, then xor with the code unit
(all intermediate JS coercions collapse to this on unsigned 32-bit
values). -/
def hashStep (h : Nat) (c : Nat) : Nat :=
  (33 * h % 2 ^ 32) ^^^ c

/-- Fold `hashStep` over the characters of one string (UTF-16 code units of
the JS source are modelled by the code points; they agree on all characters
the serializer emits for ordinary node fields). -/
def hashString (h : Nat) (s : String) : Nat :=
  s.data.foldl (fun a c => hashStep a c.toNat) h

/-- `hashStrings(list)` with the djb2-xor seed 5381. -/
def hashStrings (l : List String) : Nat :=
  l.foldl hashString 5381

/-- `(h >>> 0).toString(16)` — hexadecimal rendering. -/
def toHex (n : Nat) : String :=
  String.mk (Nat.toDigits 16 n)

/-- `getBatchKey(proxies)` (claude.js lines 273-277): fingerprints, sorted,
hashed, under the batch prefix string. -/
def getBatchKey (ps : List Proxy) : String :=
  "claude_check_batch_v2:" ++
    toHex (hashStrings
      (List.insertionSort (fun a b => lexLe a b = true) (ps.map getFingerprint)))

/-- A cached per-node Decision Record, as the script writes and reads it:
`{ ok, tries, ts, denied? }`.  `ok` records whether the stored field is
exactly `true` (reads go through `cachedRes.ok === true`); `tries` is `some`
exactly when the stored field is a number (reads go through
`typeof cachedRes.tries === 'number'`); `denied` is absent (`false`) on
records written by the probe path. -/
structure DecRecord where
  ok : Bool
  tries : Option Int
  ts : Nat
  denied : Bool
deriving DecidableEq, Repr

/-- A cached per-batch meta record `{ runs, locked, ts }`.  `runs` is `some`
exactly when the stored field is a number; `locked` records whether the field
is exactly `true`. -/
structure BatchMeta where
  runs : Option Int
  locked : Bool
  ts : Nat
deriving DecidableEq, Repr

/-- Overwrite-or-append on an association list: `cache.set(key, value)`. -/
def setAssoc {α : Type} (l : List (String × α)) (k : String) (v : α) :
    List (String × α) :=
  match l with
  | [] => [(k, v)]
  | e :: t => if e.1 = k then (k, v) :: t else e :: setAssoc t k v

/-- Lookup on an association list: `cache.get(key)`. -/
def getAssoc {α : Type} (l : List (String × α)) (k : String) : Option α :=
  (l.find? (fun e => e.1 == k)).map (·.2)

/-- The external `scriptResourceCache`, restricted to the two key spaces this
script uses.  Decision-record keys (built by `getProxyCacheKey`) and batch
keys (built by `getBatchKey`) carry distinct literal key-prefix strings, so
the single JS cache splits soundly into two association lists. -/
structure Store where
  recs : List (String × DecRecord)
  metas : List (String × BatchMeta)
deriving DecidableEq, Repr

def Store.setRec (s : Store) (k : String) (v : DecRecord) : Store :=
  { s with recs := setAssoc s.recs k v }

def Store.getRec (s : Store) (k : String) : Option DecRecord :=
  getAssoc s.recs k

def Store.setMeta (s : Store) (k : String) (v : BatchMeta) : Store :=
  { s with metas := setAssoc s.metas k v }

def Store.getMeta (s : Store) (k : String) : Option BatchMeta :=
  getAssoc s.metas k

/-- The probe mode `(arguments.mode || 'api_then_web').toLowerCase()`; any
unrecognized string falls through both equality tests in `checkClaude` and so
behaves as `api_then_web`. -/
inductive Mode where
  | api_only
  | web_only
  | api_then_web
deriving DecidableEq, Repr

/-- The parsed script arguments of one invocation (claude.js lines 43-75).
`force` is the computed flag, which the source already conjoins with
`useCache`; `deny` is the compiled deny regular expression as its test
predicate; `now` stands for the `Date.now()` clock (`ts` fields are never
read back). -/
structure Config where
  useCache : Bool
  force : Bool
  maxTries : Int
  maxRuns : Int
  mode : Mode
  strict : Bool
  allow429 : Bool
  allow529 : Bool
  webOkStatuses : List Int
  deny : Option (String → Bool)
  now : Nat

/-- A parsed JSON value, the result of `tryParseJson` on a response body. -/
inductive JVal where
  | null
  | bool (b : Bool)
  | num (n : Int)
  | str (s : String)
  | arr (xs : List JVal)
  | obj (fields : List (String × JVal))

/-- Property access `j.k` on a parsed JSON object field list. -/
def jGet (fs : List (String × JVal)) (k : String) : Option JVal :=
  (fs.find? (fun e => e.1 == k)).map (·.2)

/-- `looksLikeAnthropicError(j)` (claude.js lines 251-258): a JSON object with
`type === 'error'` and an `error` object carrying string `type` and
`message`.  Non-objects (and `null`) fail the first guards. -/
def looksLikeAnthropicError (j : Option JVal) : Bool :=
  match j with
  | some (JVal.obj fs) =>
    (match jGet fs ("type") with
     | some (JVal.str s) => s == ("error")
     | _ => false) &&
    (match jGet fs ("error") with
     | some (JVal.obj efs) =>
       (match jGet efs ("type") with
        | some (JVal.str _) => true
        | _ => false) &&
       (match jGet efs ("message") with
        | some (JVal.str _) => true
        | _ => false)
     | _ => false)
  | _ => false

/-- `(j && j.error && typeof j.error.type === 'string') ? j.error.type : ''`
(claude.js line 210). -/
def anthropicErrorType (j : Option JVal) : String :=
  match j with
  | some (JVal.obj fs) =>
    match jGet fs ("error") with
    | some (JVal.obj efs) =>
      match jGet efs ("type") with
      | some (JVal.str s) => s
      | _ => ""
    | _ => ""
  | _ => ""

/-- The outcome of one `$.http.get`: either a response with its parsed status
and the `tryParseJson` of its (trimmed) body, or a thrown transport failure
(timeout, connection reset, DNS failure — anything that lands in the `catch`
block). -/
inductive HttpRes where
  | ok (status : Int) (json : Option JVal)
  | err

/-- `checkAnthropicAPI` (claude.js lines 183-223): classify the API response.
A transport failure is caught and returns `false`. -/
def checkAnthropicAPI (cfg : Config) (r : HttpRes) : Bool :=
  match r with
  | HttpRes.err => false
  | HttpRes.ok status j =>
    if status = 429 then cfg.allow429 && looksLikeAnthropicError j
    else if status = 529 then cfg.allow529 && looksLikeAnthropicError j
    else if cfg.strict then
      decide (status = 401) && looksLikeAnthropicError j &&
        anthropicErrorType j == ("authentication_error")
    else if status = 401 || status = 400 || status = 403 then
      looksLikeAnthropicError j
    else false

/-- `checkClaudeWeb` (claude.js lines 225-245): status in `webOkStatuses`;
transport failures are caught and return `false`.  The body is not
inspected. -/
def checkClaudeWeb (cfg : Config) (r : HttpRes) : Bool :=
  match r with
  | HttpRes.err => false
  | HttpRes.ok status _ => cfg.webOkStatuses.contains status

/-- The per-task environment chosen by the outside world: whether the global
deadline had passed when the task started, whether `ProxyUtils.produce`
yielded a node, and the two HTTP outcomes the probe would observe. -/
structure ProbeEnv where
  timedOut : Bool
  produced : Bool
  apiRes : HttpRes
  webRes : HttpRes

/-- `checkClaude` (claude.js lines 170-181): mode dispatch; in
`api_then_web` the web request only happens when the API probe failed. -/
def checkClaude (cfg : Config) (e : ProbeEnv) : Bool :=
  match cfg.mode with
  | Mode.web_only => checkClaudeWeb cfg e.webRes
  | Mode.api_only => checkAnthropicAPI cfg e.apiRes
  | Mode.api_then_web =>
    if checkAnthropicAPI cfg e.apiRes then true else checkClaudeWeb cfg e.webRes

/-- `!force && denyRe && denyRe.test(proxy.name || '')`
(claude.js line 105). -/
def denyHit (cfg : Config) (p : Proxy) : Bool :=
  !cfg.force &&
    (match cfg.deny with
     | some test => test (Proxy.nameOf p)
     | none => false)

/-- The cache read of the node loop:
`if (useCache) cachedRes = cache.get(cacheKey)` (claude.js line 116). -/
def cachedLookup (cfg : Config) (s : Store) (p : Proxy) : Option DecRecord :=
  if cfg.useCache then s.getRec (getProxyCacheKey p) else none

/-- `(cachedRes && typeof cachedRes.tries === 'number') ? cachedRes.tries : 0`
(claude.js line 124). -/
def triesOfRec (c : Option DecRecord) : Int :=
  match c with
  | some r => r.tries.getD 0
  | none => 0

/-- The prior tries the deny branch reads:
`(cache.get(cacheKey) || \x7b\x7d).tries` through the `typeof` guard
(claude.js lines 108-109). -/
def priorTriesAt (s : Store) (k : String) : Int :=
  match s.getRec k with
  | some r => r.tries.getD 0
  | none => 0

/-- A probe task `\x7b proxy, cacheKey, tries \x7d` (claude.js line 131). -/
structure Task where
  proxy : Proxy
  cacheKey : String
  tries : Int
deriving DecidableEq, Repr

/-- One iteration of the phase-1 node loop (claude.js lines 100-132):
deny-filter, cached-success fast path, retry cap, else enqueue a task.
Returns the store after the iteration, the `_isOk` mark set on the proxy
(`none` when left undefined), and the task created, if any. -/
def phase1Step (cfg : Config) (s : Store) (p : Proxy) :
    Store × Option Bool × Option Task :=
  let key := getProxyCacheKey p
  if denyHit cfg p then
    (if cfg.useCache then
       s.setRec key
         { ok := false, tries := some (priorTriesAt s key + 1), ts := cfg.now,
           denied := true }
     else s,
     some false, none)
  else
    let cached := cachedLookup cfg s p
    if (cached.map (·.ok)).getD false then (s, some true, none)
    else
      let tries := triesOfRec cached
      if !cfg.force && decide (0 < cfg.maxTries) && decide (cfg.maxTries ≤ tries) then
        (s, some false, none)
      else (s, none, some { proxy := p, cacheKey := key, tries := tries })

/-- The whole phase-1 loop, threading the store left to right; marks are kept
positionally (one per proxy) and each created task is tagged with its
proxy's position. -/
def phase1Go (cfg : Config) (idx : Nat) (s : Store) :
    List Proxy → Store × List (Option Bool) × List (Nat × Task)
  | [] => (s, [], [])
  | p :: rest =>
    let step := phase1Step cfg s p
    let r := phase1Go cfg (idx + 1) step.1 rest
    (r.1, step.2.1 :: r.2.1,
      match step.2.2 with
      | some t => (idx, t) :: r.2.2
      | none => r.2.2)

/-- One task body of phase 2 (claude.js lines 138-154): bail out after the
deadline or when `ProxyUtils.produce` fails (both without touching the cache
or the attempt counter), otherwise probe, write the record
`\x7b ok, tries + 1, ts \x7d` when caching, and mark the proxy. -/
def taskStep (cfg : Config) (e : ProbeEnv)
    (acc : Store × List (Option Bool) × Nat) (it : Nat × Task) :
    Store × List (Option Bool) × Nat :=
  if e.timedOut then acc
  else if !e.produced then acc
  else
    let isOk := checkClaude cfg e
    let s := if cfg.useCache then
        acc.1.setRec it.2.cacheKey
          { ok := isOk, tries := some (it.2.tries + 1), ts := cfg.now,
            denied := false }
      else acc.1
    (s, acc.2.1.set it.1 (some isOk), acc.2.2 + 1)

/-- Phase 2: run every task (the tasks write to per-node keys and read
nothing from the cache, so any completion interleaving yields the states this
left fold yields); `env` assigns each task its probe environment by proxy
position.  The `Nat` component is `attemptedCount`. -/
def phase2 (cfg : Config) (env : Nat → ProbeEnv) (s : Store)
    (marks : List (Option Bool)) (tasks : List (Nat × Task)) :
    Store × List (Option Bool) × Nat :=
  tasks.foldl (fun acc it => taskStep cfg (env it.1) acc it) (s, marks, 0)

/-- `batchMeta = (useCache ? cache.get(batchKey) : undefined) ||
\x7b runs: 0, locked: false \x7d` (claude.js line 80). -/
def readBatchMeta (cfg : Config) (s : Store) (bk : String) : BatchMeta :=
  (if cfg.useCache then s.getMeta bk else none).getD
    { runs := some 0, locked := false, ts := 0 }

/-- `meta.runs >= maxRuns` through JS number semantics: a non-number `runs`
compares false. -/
def runsReached (m : BatchMeta) (maxRuns : Int) : Bool :=
  match m.runs with
  | some r => decide (maxRuns ≤ r)
  | none => false

/-- `shouldLock` (claude.js line 82): caching on, not forced, positive cap,
and the meta already locked or at the cap. -/
def shouldLock (cfg : Config) (m : BatchMeta) : Bool :=
  cfg.useCache && !cfg.force && decide (0 < cfg.maxRuns) &&
    (m.locked || runsReached m cfg.maxRuns)

/-- The phase-3 batch-meta update (claude.js lines 160-164): only when
caching, not forced, positive cap and at least one probe was attempted;
`runs` is read through the `typeof` guard. -/
def updateMeta (cfg : Config) (bk : String) (m : BatchMeta) (attempted : Nat)
    (s : Store) : Store :=
  if cfg.useCache && !cfg.force && decide (0 < cfg.maxRuns) &&
      decide (0 < attempted) then
    let nextRuns := m.runs.getD 0 + 1
    s.setMeta bk
      { runs := some nextRuns, locked := decide (cfg.maxRuns ≤ nextRuns),
        ts := cfg.now }
  else s

/-- What one invocation of the operator produces: the accepted subset (the
return value `proxies.filter(p => p._isOk === true)`), the cache after the
invocation, the probe tasks phase 1 created, and `attemptedCount`. -/
structure OpOutput where
  accepted : List Proxy
  store : Store
  tasks : List Task
  attempted : Nat
deriving DecidableEq, Repr

/-- The locked-path verdict for one node: `cachedRes && cachedRes.ok === true`
(claude.js lines 88-94). -/
def lockedVerdict (s : Store) (p : Proxy) : Bool :=
  ((s.getRec (getProxyCacheKey p)).map (·.ok)).getD false

/-- The full operator of src/script/claude.js (src/script/gpt.js and the
first operator of src/script/gemini.js are structurally identical): batch
lock check and cache-only answer, else phase 1 (cache consultation and task
assembly), phase 2 (bounded probing; the environment supplies each task's
outcome) and phase 3 (batch-meta advance).  Node renaming
(`rename`/`addPrefix`) only rewrites display labels of already-accepted
nodes and is not modelled. -/
def runOperator (cfg : Config) (env : Nat → ProbeEnv) (proxies : List Proxy)
    (s0 : Store) : OpOutput :=
  let bk := getBatchKey proxies
  let meta := readBatchMeta cfg s0 bk
  if shouldLock cfg meta then
    { accepted := proxies.filter (fun p => lockedVerdict s0 p),
      store := s0, tasks := [], attempted := 0 }
  else
    let ph1 := phase1Go cfg 0 s0 proxies
    let ph2 := phase2 cfg env ph1.1 ph1.2.1 ph1.2.2
    let s3 := updateMeta cfg bk meta ph2.2.2 ph2.1
    { accepted :=
        ((proxies.zip ph2.2.1).filter (fun pm => pm.2 == some true)).map (·.1),
      store := s3, tasks := ph1.2.2.map (·.2), attempted := ph2.2.2 }

/-- The condition under which the phase-1 loop actually creates a probe task
for a node, read off from the code: not deny-filtered, no sticky cached
success, and (forced, or the cap disabled, or still under the cap). -/
def shouldProbeCode (cfg : Config) (cached : Option DecRecord) : Bool :=
  !(cached.map (·.ok)).getD false &&
    (cfg.force || !decide (0 < cfg.maxTries) ||
      decide (triesOfRec cached < cfg.maxTries))

/-- Modelled from the spec wording of section 4.5, for refinement comparison
with the code: `shouldProbe(record, maxTries, forceFlag)` is true if forced,
or if no record exists, or if `record.ok` is not true and
`record.tries < maxTries`, with `maxTries ≤ 0` disabling the cap. -/
def specShouldProbe (record : Option DecRecord) (maxTries : Int)
    (force : Bool) : Bool :=
  force || record.isNone ||
    (match record with
     | some r =>
       !r.ok && (decide (maxTries ≤ 0) || decide (r.tries.getD 0 < maxTries))
     | none => true)

/-!
The bounded-concurrency scheduler `executeAsyncTasks` (claude.js lines
297-322; byte-identical in gpt.js and gemini.js).  Its observable state is
the pair of counters `index` (tasks started so far) and `running` (tasks
started and not yet finished), plus whether the promise has resolved.  The
scheduler is driven by activations of `executeNextTask`: once at the start,
and once from the `finally` of every completing task; each activation reads
the clock.  `deadline` is a JS number whose falsy value `0` (like the absent
default) disables the deadline check, as in
`if (deadline && Date.now() > deadline)`.
-/

structure Sched where
  idx : Nat
  running : Nat
  resolved : Bool
deriving DecidableEq, Repr

/-- `deadline && Date.now() > deadline`. -/
def timeUp (deadline now : Nat) : Bool :=
  decide (deadline ≠ 0) && decide (deadline < now)

/-- One activation of `executeNextTask`: on a passed deadline resolve only if
nothing is in flight; otherwise the while loop starts
`min (remaining, free slots)` tasks, then resolves if the queue is drained
with nothing in flight. -/
def execNext (n limit deadline now : Nat) (s : Sched) : Sched :=
  if timeUp deadline now then
    if s.running = 0 then { s with resolved := true } else s
  else
    let k := min (n - s.idx) (limit - s.running)
    let started : Sched := { s with idx := s.idx + k, running := s.running + k }
    if started.running = 0 ∧ n ≤ started.idx then { started with resolved := true }
    else started

/-- The `finally` handler of a completing task: decrement `running`, resolve
if drained and idle, otherwise re-activate `executeNextTask`. -/
def completeTask (n limit deadline now : Nat) (s : Sched) : Sched :=
  let s1 : Sched := { s with running := s.running - 1 }
  if s1.running = 0 ∧ n ≤ s1.idx then { s1 with resolved := true }
  else execNext n limit deadline now s1

/-- One external event: some in-flight task completes (observing the clock
value `now` in the re-activation).  When nothing is in flight no completion
can occur, so the state is unchanged. -/
def schedStep (n limit deadline : Nat) (s : Sched) (now : Nat) : Sched :=
  if s.running = 0 then s else completeTask n limit deadline now s

/-- The scheduler state after the initial activation (at clock `now0`)
followed by the completion events `events` (one clock value each); the
interleaving of completions is arbitrary, so `events` ranges over all
schedules. -/
def schedRun (n limit deadline now0 : Nat) (events : List Nat) : Sched :=
  events.foldl (schedStep n limit deadline)
    (execNext n limit deadline now0 { idx := 0, running := 0, resolved := false })

/-- The trace of scheduler states visible after each activation. -/
def schedTraceFrom (n limit deadline : Nat) (s : Sched) :
    List Nat → List Sched
  | [] => [s]
  | now :: rest =>
    s :: schedTraceFrom n limit deadline (schedStep n limit deadline s now) rest

def schedTrace (n limit deadline now0 : Nat) (events : List Nat) :
    List Sched :=
  schedTraceFrom n limit deadline
    (execNext n limit deadline now0 { idx := 0, running := 0, resolved := false })
    events

/-!
The dual-check variant of the cache policy (the v13.0 operator appended in
src/script/gemini.js, lines 380-589; v9.0 shares the rule): a node's result
is only written to the cache when both targets produced a concrete status
(`fully_checked`), so a transport failure on either target is left uncached.
-/

/-- Containment of one string in another (JS `String.prototype.includes` and
the substring regular expressions of the v13 operator). -/
def strContains (s pat : String) : Bool :=
  strContainsAux s.data pat.data
where
  strContainsAux : List Char → List Char → Bool
    | l, pl =>
      pl.isPrefixOf l ||
        (match l with
         | [] => false
         | _ :: t => strContainsAux t pl)

/-- The whitespace class `\s` of the region regular expression (the common
members; the scripts only ever match it inside node display names). -/
def isJsWs (c : Char) : Bool :=
  c = ' ' || c = '\t' || c = '\n' || c = '\r'

/-- Matcher for the alternative `香\s*港` of the region-block regular
expression. -/
def xiangGangAux : List Char → Bool
  | [] => false
  | c :: t => (c = '香' && xiangGangAfter t) || xiangGangAux t
where
  xiangGangAfter : List Char → Bool
    | [] => false
    | c :: t => if isJsWs c then xiangGangAfter t else c = '港'

/-- `hkRegex.test(name)` for
`/(?:HongKong|Hong Kong|HK|🇭🇰|香\s*港|港|港中转)/i` (gemini.js v13 operator
line 487). -/
def hkTest (s : String) : Bool :=
  let l := jsToLower s
  strContains l ("hongkong") || strContains l ("hong kong") ||
    strContains l ("hk") || strContains s ("🇭🇰") || xiangGangAux s.data ||
    strContains s ("港") || strContains s ("港中转")

/-- An HTTP outcome whose raw body the v13 classifier inspects with body
regular expressions. -/
inductive HttpResB where
  | ok (status : Int) (body : String)
  | err

/-- The 403-body deny list of the v13 GPT check:
`/(unsupported_country|region not supported|country|access denied|vpn|proxy)/i`. -/
def gptBlockedBody (body : String) : Bool :=
  let l := jsToLower body
  strContains l ("unsupported_country") || strContains l ("region not supported") ||
    strContains l ("country") || strContains l ("access denied") ||
    strContains l ("vpn") || strContains l ("proxy")

/-- `checkGPT` of the v13 operator (gemini.js lines 492-518): verdict and the
recorded status; a transport failure leaves the status at `0`. -/
def checkGPTv13 (r : HttpResB) : Bool × Int :=
  match r with
  | HttpResB.err => (false, 0)
  | HttpResB.ok status body =>
    if status = 200 || status = 302 || status = 429 then (true, status)
    else if status = 403 && !gptBlockedBody body then (true, status)
    else (false, status)

/-- `checkGemini` of the v13 operator (gemini.js lines 520-539): a
region-blocked name short-circuits to a synthetic 403; a transport failure
leaves the status at `0`. -/
def checkGeminiV13 (regionBlocked : Bool) (r : HttpResB) : Bool × Int :=
  if regionBlocked then (false, 403)
  else
    match r with
    | HttpResB.err => (false, 0)
    | HttpResB.ok status _ => (decide (status = 400), status)

/-- The per-node result of the v13 operator. -/
structure DualRes where
  gpt : Bool
  gemini : Bool
  fullyChecked : Bool
deriving DecidableEq, Repr

/-- `performNetworkCheck` of the v13 operator (gemini.js lines 478-548):
both checks, and `fully_checked` exactly when both statuses are positive. -/
def performNetworkCheck (name : String) (gptRes gemRes : HttpResB) : DualRes :=
  let g := checkGPTv13 gptRes
  let m := checkGeminiV13 (hkTest name) gemRes
  { gpt := g.1, gemini := m.1,
    fullyChecked := decide (0 < g.2) && decide (0 < m.2) }

/-- The cache write of a v13 task (gemini.js lines 436-438):
`if (useCache && res.fully_checked) cache.set(task.cacheKey, res)`. -/
def v13TaskCache (useCache : Bool) (store : List (String × DualRes))
    (key : String) (res : DualRes) : List (String × DualRes) :=
  if useCache && res.fullyChecked then setAssoc store key res else store

/-!
Concrete sample data used by the closed evaluation theorems below.
-/

def pW1 : Proxy :=
  ⟨[(("name"), PVal.str ("n1")), (("server"), PVal.str ("a")),
    (("port"), PVal.num 443)]⟩

/-- Same configuration as `pW1`, differing only in the display label. -/
def pW2 : Proxy :=
  ⟨[(("name"), PVal.str ("n2")), (("server"), PVal.str ("a")),
    (("port"), PVal.num 443)]⟩

def pW3 : Proxy :=
  ⟨[(("name"), PVal.str ("n3")), (("server"), PVal.str ("b")),
    (("port"), PVal.num 443)]⟩

def pHKW : Proxy :=
  ⟨[(("name"), PVal.str ("HK")), (("server"), PVal.str ("a")),
    (("port"), PVal.num 443)]⟩

/-- The default argument values of claude.js (`maxTries=2`, `maxRuns=2`,
`mode=api_then_web`, `strict=true`, caching on, no force, no deny), with
clock value 7. -/
def cfgBase : Config :=
  { useCache := true, force := false, maxTries := 2, maxRuns := 2,
    mode := Mode.api_then_web, strict := true, allow429 := false,
    allow529 := false, webOkStatuses := [200, 302], deny := none, now := 7 }

def cfgForce : Config := { cfgBase with force := true }

def cfgDeny : Config :=
  { cfgBase with deny := some (fun s => s == ("HK")) }

/-- Every probe sees a transport failure on both endpoints; the deadline has
not passed and the node materializes. -/
def envErrW : Nat → ProbeEnv :=
  fun _ => ⟨false, true, HttpRes.err, HttpRes.err⟩

def emptyStore : Store := ⟨[], []⟩

def sOkW : Store :=
  ⟨[(getProxyCacheKey pW1, ⟨true, some 0, 3, false⟩)], []⟩

def sOkHKW : Store :=
  ⟨[(getProxyCacheKey pHKW, ⟨true, some 0, 3, false⟩)], []⟩

def sLockedW : Store :=
  ⟨[(getProxyCacheKey pW1, ⟨true, some 1, 3, false⟩)],
   [(getBatchKey [pW1, pW3], ⟨some 2, true, 3⟩)]⟩

/-!
Theorems.  First the order-theoretic facts about the code-unit string
comparison, then the claim theorems.
-/

theorem lexLeChars_cons_lt {a b : Char} (h : a < b) (as bs : List Char) :
    lexLeChars (a :: as) (b :: bs) = true := by
  simp [lexLeChars, h]

theorem lexLeChars_cons_gt {a b : Char} (h : b < a) (as bs : List Char) :
    lexLeChars (a :: as) (b :: bs) = false := by
  simp [lexLeChars, h, lt_asymm h]

theorem lexLeChars_cons_self (a : Char) (as bs : List Char) :
    lexLeChars (a :: as) (a :: bs) = lexLeChars as bs := by
  simp [lexLeChars]

theorem lexLeChars_total : ∀ as bs : List Char,
    lexLeChars as bs = true ∨ lexLeChars bs as = true
  | [], _ => Or.inl rfl
  | _ :: _, [] => Or.inr rfl
  | a :: as, b :: bs => by
    rcases lt_trichotomy a b with h | h | h
    · exact Or.inl (lexLeChars_cons_lt h as bs)
    · subst h
      rcases lexLeChars_total as bs with h2 | h2
      · exact Or.inl (by rw [lexLeChars_cons_self]; exact h2)
      · exact Or.inr (by rw [lexLeChars_cons_self]; exact h2)
    · exact Or.inr (lexLeChars_cons_lt h bs as)

theorem lexLeChars_trans : ∀ as bs cs : List Char,
    lexLeChars as bs = true → lexLeChars bs cs = true → lexLeChars as cs = true
  | [], _, _, _, _ => rfl
  | _ :: _, [], _, h1, _ => by simp [lexLeChars] at h1
  | _ :: _, _ :: _, [], _, h2 => by simp [lexLeChars] at h2
  | a :: as, b :: bs, c :: cs, h1, h2 => by
    rcases lt_trichotomy a b with hab | hab | hab
    · rcases lt_trichotomy b c with hbc | hbc | hbc
      · exact lexLeChars_cons_lt (hab.trans hbc) as cs
      · subst hbc; exact lexLeChars_cons_lt hab as cs
      · rw [lexLeChars_cons_gt hbc bs cs] at h2
        exact absurd h2 (by simp)
    · subst hab
      rcases lt_trichotomy a c with hac | hac | hac
      · exact lexLeChars_cons_lt hac as cs
      · subst hac
        rw [lexLeChars_cons_self] at h1 h2 ⊢
        exact lexLeChars_trans as bs cs h1 h2
      · rw [lexLeChars_cons_gt hac bs cs] at h2
        exact absurd h2 (by simp)
    · rw [lexLeChars_cons_gt hab as bs] at h1
      exact absurd h1 (by simp)

theorem lexLeChars_antisymm : ∀ as bs : List Char,
    lexLeChars as bs = true → lexLeChars bs as = true → as = bs
  | [], [], _, _ => rfl
  | [], _ :: _, _, h2 => by simp [lexLeChars] at h2
  | _ :: _, [], h1, _ => by simp [lexLeChars] at h1
  | a :: as, b :: bs, h1, h2 => by
    rcases lt_trichotomy a b with hab | hab | hab
    · rw [lexLeChars_cons_gt hab bs as] at h2
      exact absurd h2 (by simp)
    · subst hab
      rw [lexLeChars_cons_self] at h1 h2
      rw [lexLeChars_antisymm as bs h1 h2]
    · rw [lexLeChars_cons_gt hab as bs] at h1
      exact absurd h1 (by simp)

theorem filterVol_drop_name (l : List (String × PVal)) :
    l.filter (fun e => !isVolatileKey e.1) =
      (l.filter (fun e => !(e.1 == ("name")))).filter
        (fun e => !isVolatileKey e.1) := by
  induction l with
  | nil => rfl
  | cons e t ih =>
    by_cases h : e.1 = ("name")
    · have hv : isVolatileKey ("name") = true := by decide
      simp [List.filter_cons, h, hv, ih]
    · simp [List.filter_cons, h, ih]

/-- C8: two nodes whose field maps differ only in the display label `name`
have the same `getFingerprint`, because the volatile-key filter removes the
`name` entry before serialization. -/
theorem fingerprint_ignores_name (p q : Proxy)
    (h : p.fields.filter (fun e => !(e.1 == ("name"))) =
         q.fields.filter (fun e => !(e.1 == ("name")))) :
    getFingerprint p = getFingerprint q := by
  unfold getFingerprint
  rw [filterVol_drop_name p.fields, filterVol_drop_name q.fields, h]

/-- C8 witness: the sample proxies `pW1` and `pW2` differ only in `name` and
get equal fingerprints. -/
theorem fingerprint_ignores_name_witness :
    (pW1.fields.filter (fun e => !(e.1 == ("name"))) =
      pW2.fields.filter (fun e => !(e.1 == ("name")))) ∧
      getFingerprint pW1 = getFingerprint pW2 :=
  ⟨by decide, fingerprint_ignores_name pW1 pW2 (by decide)⟩

/-- C9: `getBatchKey` is invariant under permutation of the node list: the
fingerprints are sorted before hashing, and sorting by the antisymmetric
code-unit order maps permuted lists to the same sorted list. -/
theorem batchKey_perm_invariant (ps qs : List Proxy) (h : List.Perm ps qs) :
    getBatchKey ps = getBatchKey qs := by
  haveI : IsTotal String (fun a b => lexLe a b = true) :=
    ⟨fun a b => lexLeChars_total a.data b.data⟩
  haveI : IsTrans String (fun a b => lexLe a b = true) :=
    ⟨fun a b c h1 h2 => lexLeChars_trans a.data b.data c.data h1 h2⟩
  haveI : IsAntisymm String (fun a b => lexLe a b = true) :=
    ⟨fun a b h1 h2 => by
      cases a with
      | mk da =>
        cases b with
        | mk db => exact congrArg String.mk (lexLeChars_antisymm da db h1 h2)⟩
  have hsort :
      List.insertionSort (fun a b => lexLe a b = true) (ps.map getFingerprint) =
        List.insertionSort (fun a b => lexLe a b = true) (qs.map getFingerprint) :=
    List.eq_of_perm_of_sorted
      ((List.perm_insertionSort _ _).trans
        ((h.map getFingerprint).trans (List.perm_insertionSort _ _).symm))
      (List.sorted_insertionSort _ _) (List.sorted_insertionSort _ _)
  unfold getBatchKey
  rw [hsort]

/-- C9 witness: swapping the two sample nodes leaves the batch key
unchanged. -/
theorem batchKey_perm_invariant_witness :
    List.Perm [pW1, pW3] [pW3, pW1] ∧
      getBatchKey [pW1, pW3] = getBatchKey [pW3, pW1] :=
  ⟨List.Perm.swap pW3 pW1 [],
   batchKey_perm_invariant [pW1, pW3] [pW3, pW1] (List.Perm.swap pW3 pW1 [])⟩

theorem getAssoc_setAssoc_self {α : Type} (l : List (String × α)) (k : String)
    (v : α) : getAssoc (setAssoc l k v) k = some v := by
  induction l with
  | nil => simp [setAssoc, getAssoc, List.find?]
  | cons e t ih =>
    by_cases h : e.1 = k
    · simp [setAssoc, h, getAssoc, List.find?]
    · have hbe : (e.1 == k) = false := by simp [h]
      unfold getAssoc at ih ⊢
      simp only [setAssoc, if_neg h, List.find?, hbe]
      exact ih

theorem phase1Step_metas (cfg : Config) (s : Store) (p : Proxy) :
    ((phase1Step cfg s p).1).metas = s.metas := by
  unfold phase1Step Store.setRec
  dsimp only
  repeat' split
  all_goals rfl

theorem phase1Go_metas (cfg : Config) (idx : Nat) (s : Store)
    (ps : List Proxy) : ((phase1Go cfg idx s ps).1).metas = s.metas := by
  induction ps generalizing idx s with
  | nil => rfl
  | cons p rest ih =>
    simp only [phase1Go]
    rw [ih]
    exact phase1Step_metas cfg s p

theorem taskStep_metas (cfg : Config) (e : ProbeEnv)
    (acc : Store × List (Option Bool) × Nat) (it : Nat × Task) :
    ((taskStep cfg e acc it).1).metas = acc.1.metas := by
  unfold taskStep Store.setRec
  repeat' split
  all_goals rfl

theorem foldl_taskStep_metas (cfg : Config) (env : Nat → ProbeEnv) :
    ∀ (tasks : List (Nat × Task)) (acc : Store × List (Option Bool) × Nat),
      ((tasks.foldl (fun a it => taskStep cfg (env it.1) a it) acc).1).metas =
        acc.1.metas
  | [], _ => rfl
  | t :: rest, acc => by
    rw [List.foldl_cons, foldl_taskStep_metas cfg env rest _,
      taskStep_metas]

theorem phase2_metas (cfg : Config) (env : Nat → ProbeEnv) (s : Store)
    (marks : List (Option Bool)) (tasks : List (Nat × Task)) :
    ((phase2 cfg env s marks tasks).1).metas = s.metas :=
  foldl_taskStep_metas cfg env tasks (s, marks, 0)

/-- C1 (amended): in the non-locked node loop, a probe task is created for a
node exactly when it is not deny-filtered and `shouldProbeCode` holds of the
record it reads: no sticky cached success, and (forced, or the cap disabled,
or still under the cap).  (The spec-worded `specShouldProbe` differs: it
makes `force` alone sufficient, but the code's cached-success fast path
precedes the force bypass, and the deny filter precedes everything.) -/
theorem task_iff_shouldProbeCode (cfg : Config) (s : Store) (p : Proxy) :
    ((phase1Step cfg s p).2.2).isSome =
      (!denyHit cfg p && shouldProbeCode cfg (cachedLookup cfg s p)) := by
  unfold phase1Step shouldProbeCode
  cases hd : denyHit cfg p
  · cases hok : ((cachedLookup cfg s p).map (·.ok)).getD false
    · by_cases hq : (0 : Int) < cfg.maxTries
      · by_cases hle : cfg.maxTries ≤ triesOfRec (cachedLookup cfg s p)
        · cases hf : cfg.force <;>
            simp [hd, hok, hq, hle, hf, not_lt.mpr hle]
        · simp [hd, hok, hq, hle, not_le.mp hle]
      · simp [hd, hok, hq]
    · simp [hd, hok]
  · simp [hd]

/-- C1 counterexample: with `force=true` and a cached `ok=true` record, the
spec's `shouldProbe` is true (forced), yet the invocation (not locked, since
forced) creates no probe task: the cached-success fast path wins. -/
theorem task_iff_spec_counterexample :
    (runOperator cfgForce envErrW [pW1] sOkW).tasks = [] ∧
      specShouldProbe (sOkW.getRec (getProxyCacheKey pW1)) cfgForce.maxTries
        cfgForce.force = true :=
  ⟨by decide, by decide⟩

/-- C3: whenever the invocation is locked in the claim's sense (not forced,
positive `maxRuns`, and the batch meta it reads is locked or at the cap) the
operator answers purely from the cache: it returns exactly the nodes whose
record has `ok === true`, creates no tasks, attempts no probe, and leaves the
cache unchanged. -/
theorem locked_cache_only (cfg : Config) (env : Nat → ProbeEnv)
    (proxies : List Proxy) (s : Store)
    (hforce : cfg.force = false) (hruns : 0 < cfg.maxRuns)
    (hlk : (readBatchMeta cfg s (getBatchKey proxies)).locked = true ∨
      runsReached (readBatchMeta cfg s (getBatchKey proxies)) cfg.maxRuns =
        true) :
    runOperator cfg env proxies s =
      { accepted := proxies.filter (fun p => lockedVerdict s p),
        store := s, tasks := [], attempted := 0 } := by
  have hc : cfg.useCache = true := by
    by_contra hcc
    have hmeta : readBatchMeta cfg s (getBatchKey proxies) =
        { runs := some 0, locked := false, ts := 0 } := by
      unfold readBatchMeta
      simp [hcc]
    rw [hmeta] at hlk
    rcases hlk with h | h
    · exact absurd h (by simp)
    · unfold runsReached at h
      simp at h
      omega
  have hsl : shouldLock cfg (readBatchMeta cfg s (getBatchKey proxies)) =
      true := by
    unfold shouldLock
    rcases hlk with h | h <;> simp [hc, hforce, hruns, h]
  unfold runOperator
  dsimp only
  rw [hsl]
  simp

set_option maxRecDepth 200000 in
/-- C3 witness: a locked sample store answers from cache only. -/
theorem locked_cache_only_witness :
    cfgBase.force = false ∧ 0 < cfgBase.maxRuns ∧
      ((readBatchMeta cfgBase sLockedW (getBatchKey [pW1, pW3])).locked =
        true ∨
        runsReached (readBatchMeta cfgBase sLockedW (getBatchKey [pW1, pW3]))
          cfgBase.maxRuns = true) ∧
      runOperator cfgBase envErrW [pW1, pW3] sLockedW =
        { accepted := [pW1, pW3].filter (fun p => lockedVerdict sLockedW p),
          store := sLockedW, tasks := [], attempted := 0 } :=
  ⟨rfl, by decide, Or.inl (by decide),
    locked_cache_only cfgBase envErrW [pW1, pW3] sLockedW rfl (by decide)
      (Or.inl (by decide))⟩

theorem Store.getMeta_setMeta_self (s : Store) (k : String) (v : BatchMeta) :
    (s.setMeta k v).getMeta k = some v :=
  getAssoc_setAssoc_self s.metas k v

theorem Store.getMeta_congr (s t : Store) (k : String)
    (h : s.metas = t.metas) : s.getMeta k = t.getMeta k := by
  unfold Store.getMeta
  rw [h]

theorem phase1Step_ok (cfg : Config) (s : Store) (p : Proxy)
    (hc : cfg.useCache = true)
    (hok : ((s.getRec (getProxyCacheKey p)).map (·.ok)).getD false = true)
    (hd : denyHit cfg p = false) :
    phase1Step cfg s p = (s, some true, none) := by
  have hcl : ((cachedLookup cfg s p).map (·.ok)).getD false = true := by
    unfold cachedLookup
    rw [hc]
    simpa using hok
  unfold phase1Step
  simp [hd, hcl]

theorem getAssoc_setAssoc_other {α : Type} (l : List (String × α))
    (kw k : String) (v : α) (h : kw ≠ k) :
    getAssoc (setAssoc l kw v) k = getAssoc l k := by
  induction l with
  | nil =>
    have hbe : (kw == k) = false := by simp [h]
    simp [setAssoc, getAssoc, List.find?, hbe]
  | cons e t ih =>
    by_cases he : e.1 = kw
    · have h1 : (kw == k) = false := by simp [h]
      have h2 : (e.1 == k) = false := by simp [he, h]
      simp [setAssoc, he, getAssoc, List.find?, h1, h2]
    · simp only [setAssoc, if_neg he]
      unfold getAssoc at ih ⊢
      simp only [List.find?]
      cases hbe : (e.1 == k) <;> simp [hbe, ih]

theorem phase1Step_store_nodeny (cfg : Config) (s : Store) (q : Proxy)
    (hd : denyHit cfg q = false) : (phase1Step cfg s q).1 = s := by
  unfold phase1Step
  simp only [hd, Bool.false_eq_true, if_false]
  repeat' split
  all_goals rfl

theorem phase1Step_getRec_deny (cfg : Config) (s : Store) (q : Proxy)
    (K : String) (hd : denyHit cfg q = true)
    (hne : getProxyCacheKey q ≠ K) :
    ((phase1Step cfg s q).1).getRec K = s.getRec K := by
  unfold phase1Step
  simp only [hd, if_true]
  split
  · simp only [Store.getRec, Store.setRec]
    exact getAssoc_setAssoc_other _ _ _ _ hne
  · rfl

theorem phase1Step_getRec_pres (cfg : Config) (s : Store) (q : Proxy)
    (K : String) (hkq : denyHit cfg q = true → getProxyCacheKey q ≠ K) :
    ((phase1Step cfg s q).1).getRec K = s.getRec K := by
  cases hd : denyHit cfg q
  · rw [phase1Step_store_nodeny cfg s q hd]
  · exact phase1Step_getRec_deny cfg s q K hd (hkq hd)

theorem phase1Step_task_key (cfg : Config) (s : Store) (q : Proxy) (t : Task)
    (h : (phase1Step cfg s q).2.2 = some t) :
    t.cacheKey = getProxyCacheKey q := by
  unfold phase1Step at h
  dsimp only at h
  repeat' split at h
  all_goals simp_all
  rw [← h]

/-- The phase-1 invariant behind sticky success: if the record at key `K` of
the current store has `ok === true` and no deny-matched node of the remaining
list has cache key `K`, then the loop leaves the record at `K` untouched,
never creates a task whose cache key is `K`, and marks every node whose
cache key is `K` as accepted (its position carries no task). -/
theorem phase1Go_sticky (cfg : Config) (K : String) (hc : cfg.useCache = true) :
    ∀ (ps : List Proxy) (idx : Nat) (s : Store),
      ((s.getRec K).map (·.ok)).getD false = true →
      (∀ q ∈ ps, denyHit cfg q = true → getProxyCacheKey q ≠ K) →
      (((phase1Go cfg idx s ps).1).getRec K = s.getRec K) ∧
        (∀ it ∈ (phase1Go cfg idx s ps).2.2, it.2.cacheKey ≠ K) ∧
        (∀ it ∈ (phase1Go cfg idx s ps).2.2, idx ≤ it.1) ∧
        (∀ (i : Nat) (hi : i < ps.length), getProxyCacheKey ps[i] = K →
          ((phase1Go cfg idx s ps).2.1)[i]? = some (some true) ∧
            (∀ it ∈ (phase1Go cfg idx s ps).2.2, it.1 ≠ idx + i))
  | [], idx, s, hok, hkey => by
    refine ⟨rfl, by simp [phase1Go], by simp [phase1Go], ?_⟩
    intro i hi
    exact absurd hi (by simp)
  | q :: rest, idx, s, hok, hkey => by
    have hkeyR : ∀ r ∈ rest, denyHit cfg r = true → getProxyCacheKey r ≠ K :=
      fun r hr => hkey r (by simp [hr])
    by_cases hkq : getProxyCacheKey q = K
    · have hdq : denyHit cfg q = false := by
        cases hval : denyHit cfg q
        · rfl
        · exact absurd hkq (hkey q (by simp) hval)
      have hstep : phase1Step cfg s q = (s, some true, none) :=
        phase1Step_ok cfg s q hc (by rw [hkq]; exact hok) hdq
      have ih := phase1Go_sticky cfg K hc rest (idx + 1) s hok hkeyR
      simp only [phase1Go, hstep]
      refine ⟨ih.1, ih.2.1, ?_, ?_⟩
      · intro it hit
        have := ih.2.2.1 it hit
        omega
      · intro i hi hik
        match i with
        | 0 =>
          refine ⟨by simp, ?_⟩
          intro it hit
          have := ih.2.2.1 it hit
          omega
        | Nat.succ j =>
          have hj : j < rest.length := by simpa using hi
          have hjk : getProxyCacheKey rest[j] = K := by
            simpa using hik
          have hD := ih.2.2.2 j hj hjk
          refine ⟨by simpa using hD.1, ?_⟩
          intro it hit
          have := hD.2 it hit
          omega
    · have hstore : ((phase1Step cfg s q).1).getRec K = s.getRec K :=
        phase1Step_getRec_pres cfg s q K (fun _ => hkq)
      have ih := phase1Go_sticky cfg K hc rest (idx + 1) (phase1Step cfg s q).1
        (by rw [hstore]; exact hok) hkeyR
      cases hts : (phase1Step cfg s q).2.2 with
      | none =>
        simp only [phase1Go, hts]
        refine ⟨ih.1.trans hstore, ih.2.1, ?_, ?_⟩
        · intro it hit
          have := ih.2.2.1 it hit
          omega
        · intro i hi hik
          match i with
          | 0 => exact absurd (by simpa using hik) hkq
          | Nat.succ j =>
            have hj : j < rest.length := by simpa using hi
            have hjk : getProxyCacheKey rest[j] = K := by simpa using hik
            have hD := ih.2.2.2 j hj hjk
            refine ⟨by simpa using hD.1, ?_⟩
            intro it hit
            have := hD.2 it hit
            omega
      | some t =>
        have htk : t.cacheKey ≠ K := by
          rw [phase1Step_task_key cfg s q t hts]
          exact hkq
        simp only [phase1Go, hts]
        refine ⟨ih.1.trans hstore, ?_, ?_, ?_⟩
        · intro it hit
          rcases List.mem_cons.mp hit with h | h
          · rw [h]
            exact htk
          · exact ih.2.1 it h
        · intro it hit
          rcases List.mem_cons.mp hit with h | h
          · rw [h]
          · have := ih.2.2.1 it h
            omega
        · intro i hi hik
          match i with
          | 0 => exact absurd (by simpa using hik) hkq
          | Nat.succ j =>
            have hj : j < rest.length := by simpa using hi
            have hjk : getProxyCacheKey rest[j] = K := by simpa using hik
            have hD := ih.2.2.2 j hj hjk
            refine ⟨by simpa using hD.1, ?_⟩
            intro it hit
            rcases List.mem_cons.mp hit with h | h
            · rw [h]
              omega
            · have := hD.2 it h
              omega

theorem taskStep_getRec_other (cfg : Config) (e : ProbeEnv)
    (acc : Store × List (Option Bool) × Nat) (it : Nat × Task) (K : String)
    (hne : it.2.cacheKey ≠ K) :
    ((taskStep cfg e acc it).1).getRec K = acc.1.getRec K := by
  unfold taskStep
  dsimp only
  repeat' split
  all_goals
    first
    | rfl
    | (simp only [Store.getRec, Store.setRec]
       exact getAssoc_setAssoc_other _ _ _ _ hne)

theorem foldl_taskStep_getRec (cfg : Config) (env : Nat → ProbeEnv)
    (K : String) :
    ∀ (tasks : List (Nat × Task)) (acc : Store × List (Option Bool) × Nat),
      (∀ it ∈ tasks, it.2.cacheKey ≠ K) →
      ((tasks.foldl (fun a it => taskStep cfg (env it.1) a it) acc).1).getRec K
        = acc.1.getRec K
  | [], _, _ => rfl
  | t :: rest, acc, h => by
    rw [List.foldl_cons,
      foldl_taskStep_getRec cfg env K rest _
        (fun it hit => h it (by simp [hit])),
      taskStep_getRec_other cfg (env t.1) acc t K (h t (by simp))]

theorem taskStep_marks_other (cfg : Config) (e : ProbeEnv)
    (acc : Store × List (Option Bool) × Nat) (it : Nat × Task) (i : Nat)
    (hne : it.1 ≠ i) : ((taskStep cfg e acc it).2.1)[i]? = (acc.2.1)[i]? := by
  unfold taskStep
  dsimp only
  repeat' split
  all_goals first | rfl | exact List.getElem?_set_ne hne

theorem foldl_taskStep_marks (cfg : Config) (env : Nat → ProbeEnv) (i : Nat) :
    ∀ (tasks : List (Nat × Task)) (acc : Store × List (Option Bool) × Nat),
      (∀ it ∈ tasks, it.1 ≠ i) →
      ((tasks.foldl (fun a it => taskStep cfg (env it.1) a it) acc).2.1)[i]? =
        (acc.2.1)[i]?
  | [], _, _ => rfl
  | t :: rest, acc, h => by
    rw [List.foldl_cons,
      foldl_taskStep_marks cfg env i rest _
        (fun it hit => h it (by simp [hit])),
      taskStep_marks_other cfg (env t.1) acc t i (h t (by simp))]

theorem updateMeta_recs (cfg : Config) (bk : String) (m : BatchMeta)
    (att : Nat) (s : Store) : (updateMeta cfg bk m att s).recs = s.recs := by
  unfold updateMeta Store.setMeta
  split <;> rfl

theorem Store.getRec_congr (s t : Store) (k : String)
    (h : s.recs = t.recs) : s.getRec k = t.getRec k := by
  unfold Store.getRec
  rw [h]

theorem mem_accepted_of_marks :
    ∀ (ps : List Proxy) (marks : List (Option Bool)) (i : Nat)
      (hi : i < ps.length), marks[i]? = some (some true) →
      ps[i] ∈
        (((ps.zip marks).filter (fun pm => pm.2 == some true)).map (·.1))
  | [], _, i, hi, _ => absurd hi (by simp)
  | p :: ps, [], i, _, hm => by simp at hm
  | p :: ps, m :: marks, 0, hi, hm => by
    simp only [List.getElem?_cons_zero, Option.some.injEq] at hm
    subst hm
    simp [List.zip_cons_cons, List.filter_cons]
  | p :: ps, m :: marks, i + 1, hi, hm => by
    have hrec := mem_accepted_of_marks ps marks i (by simpa using hi)
      (by simpa using hm)
    rw [List.getElem_cons_succ]
    simp only [List.zip_cons_cons, List.filter_cons]
    by_cases hmm : (m == some true) = true
    · simp only [hmm, if_true, List.map_cons]
      exact List.mem_cons_of_mem _ hrec
    · simp only [hmm, Bool.false_eq_true, if_false]
      exact hrec

/-- C2 (amended): a node whose cached record has `ok === true` is accepted
and never re-probed by any invocation with caching enabled in which no
deny-matched node of the batch shares that node's cache key (in particular
the node itself is not deny-filtered): whatever happens to the rest of the
batch, the node is in the returned accepted set, no probe task carries its
cache key, and its cache record is unchanged after the invocation.  (A
deny-matched node breaks stickiness in two ways: the node itself matching,
or a sibling with the same fingerprint — differing only in name — whose
deny write overwrites the shared record before the node is read.) -/
theorem cached_success_sticky (cfg : Config) (env : Nat → ProbeEnv)
    (proxies : List Proxy) (s : Store) (p : Proxy)
    (hc : cfg.useCache = true) (hp : p ∈ proxies)
    (hok : ((s.getRec (getProxyCacheKey p)).map (·.ok)).getD false = true)
    (hkey : ∀ q ∈ proxies,
      denyHit cfg q = true → getProxyCacheKey q ≠ getProxyCacheKey p) :
    p ∈ (runOperator cfg env proxies s).accepted ∧
      (∀ t ∈ (runOperator cfg env proxies s).tasks,
        t.cacheKey ≠ getProxyCacheKey p) ∧
      (runOperator cfg env proxies s).store.getRec (getProxyCacheKey p) =
        s.getRec (getProxyCacheKey p) := by
  unfold runOperator
  dsimp only
  by_cases hsl :
    shouldLock cfg (readBatchMeta cfg s (getBatchKey proxies)) = true
  · rw [if_pos hsl]
    refine ⟨?_, by intro t ht; exact absurd ht (by simp), rfl⟩
    exact List.mem_filter.mpr ⟨hp, by simpa [lockedVerdict] using hok⟩
  · rw [if_neg hsl]
    dsimp only
    have hph := phase1Go_sticky cfg (getProxyCacheKey p) hc proxies 0 s hok
      hkey
    obtain ⟨i, hi, hpi⟩ := List.mem_iff_getElem.mp hp
    have hD := hph.2.2.2 i hi (by rw [hpi])
    refine ⟨?_, ?_, ?_⟩
    · have hmarks :
          ((phase2 cfg env (phase1Go cfg 0 s proxies).1
            (phase1Go cfg 0 s proxies).2.1
            (phase1Go cfg 0 s proxies).2.2).2.1)[i]? = some (some true) := by
        unfold phase2
        rw [foldl_taskStep_marks cfg env i _ _
          (fun it hit => by simpa using hD.2 it hit)]
        exact hD.1
      have := mem_accepted_of_marks proxies _ i hi hmarks
      rw [hpi] at this
      exact this
    · intro t ht
      obtain ⟨it, hit, rfl⟩ := List.mem_map.mp ht
      exact hph.2.1 it hit
    · rw [Store.getRec_congr _ _ _ (updateMeta_recs cfg _ _ _ _)]
      unfold phase2
      rw [foldl_taskStep_getRec cfg env (getProxyCacheKey p) _ _ hph.2.1]
      exact hph.1

set_option maxRecDepth 400000 in
/-- C2 counterexample: the claim as stated fails in two concrete ways.
First, a node with a cached `ok=true` record whose name matches the deny
regular expression is rejected and its record overwritten.  Second, in a
mixed batch, a deny-matched sibling sharing the node's fingerprint (it
differs only in name, so it shares the cache key) overwrites the `ok=true`
record before the node is read; the node — itself cached-ok and not
deny-filtered — is then probed and its record rewritten. -/
theorem cached_success_sticky_counterexample :
    ((runOperator cfgDeny envErrW [pHKW] sOkHKW).accepted = [] ∧
      (runOperator cfgDeny envErrW [pHKW] sOkHKW).store.getRec
          (getProxyCacheKey pHKW) =
        some { ok := false, tries := some 1, ts := 7, denied := true }) ∧
    (getProxyCacheKey pHKW = getProxyCacheKey pW1 ∧
      denyHit cfgDeny pW1 = false ∧
      ((sOkW.getRec (getProxyCacheKey pW1)).map (·.ok)).getD false = true ∧
      (runOperator cfgDeny envErrW [pHKW, pW1] sOkW).accepted = [] ∧
      (runOperator cfgDeny envErrW [pHKW, pW1] sOkW).store.getRec
          (getProxyCacheKey pW1) =
        some { ok := false, tries := some 2, ts := 7, denied := false }) :=
  ⟨⟨by decide, by decide⟩,
   by decide, by decide, by decide, by decide, by decide⟩

/-- C2 witness: a mixed batch under the default (deny-free) configuration:
the cached-ok node `pW1` stays accepted with its record untouched while the
fresh node `pW3` is probed alongside it. -/
theorem cached_success_sticky_witness :
    cfgBase.useCache = true ∧ pW1 ∈ [pW1, pW3] ∧
      ((sOkW.getRec (getProxyCacheKey pW1)).map (·.ok)).getD false = true ∧
      (∀ q ∈ [pW1, pW3],
        denyHit cfgBase q = true →
          getProxyCacheKey q ≠ getProxyCacheKey pW1) ∧
      pW1 ∈ (runOperator cfgBase envErrW [pW1, pW3] sOkW).accepted ∧
      (runOperator cfgBase envErrW [pW1, pW3] sOkW).store.getRec
          (getProxyCacheKey pW1) = sOkW.getRec (getProxyCacheKey pW1) :=
  ⟨rfl, by decide, by decide, by decide,
    (cached_success_sticky cfgBase envErrW [pW1, pW3] sOkW pW1 rfl (by decide)
      (by decide) (by decide)).1,
    (cached_success_sticky cfgBase envErrW [pW1, pW3] sOkW pW1 rfl (by decide)
      (by decide) (by decide)).2.2⟩

/-- C4 (amended): after an invocation the stored batch meta equals
`runs+1, locked := runs+1 ≥ maxRuns` exactly when caching is enabled, not
forced, `maxRuns` is positive AND at least one real probe was attempted;
in every other case (including forced rounds and rounds where every node was
cache-resolved or denied) the stored meta is unchanged. -/
theorem meta_advance_iff (cfg : Config) (env : Nat → ProbeEnv)
    (proxies : List Proxy) (s : Store) :
    (runOperator cfg env proxies s).store.getMeta (getBatchKey proxies) =
      (if cfg.useCache && !cfg.force && decide (0 < cfg.maxRuns) &&
          decide (0 < (runOperator cfg env proxies s).attempted) then
        some
          { runs :=
              some ((readBatchMeta cfg s (getBatchKey proxies)).runs.getD 0 + 1),
            locked :=
              decide (cfg.maxRuns ≤
                (readBatchMeta cfg s (getBatchKey proxies)).runs.getD 0 + 1),
            ts := cfg.now }
      else s.getMeta (getBatchKey proxies)) := by
  unfold runOperator
  dsimp only
  by_cases hsl :
    shouldLock cfg (readBatchMeta cfg s (getBatchKey proxies)) = true
  · rw [if_pos hsl]
    simp
  · rw [if_neg hsl]
    dsimp only
    have hmetas :
        ((phase2 cfg env (phase1Go cfg 0 s proxies).1
          (phase1Go cfg 0 s proxies).2.1 (phase1Go cfg 0 s proxies).2.2).1).metas
          = s.metas := by
      rw [phase2_metas, phase1Go_metas]
    unfold updateMeta
    by_cases hg : (cfg.useCache && !cfg.force && decide (0 < cfg.maxRuns) &&
        decide (0 <
          (phase2 cfg env (phase1Go cfg 0 s proxies).1
            (phase1Go cfg 0 s proxies).2.1
            (phase1Go cfg 0 s proxies).2.2).2.2)) = true
    · rw [if_pos hg, if_pos hg]
      exact Store.getMeta_setMeta_self _ _ _
    · rw [if_neg hg, if_neg hg]
      exact Store.getMeta_congr _ _ _ hmetas

set_option maxRecDepth 400000 in
/-- C4 counterexample: with `force=true` a probe is attempted
(`attemptedCount = 1`) yet the batch meta record is not created or advanced
— the runs field is not incremented although a real probe ran. -/
theorem meta_advance_iff_counterexample :
    (runOperator cfgForce envErrW [pW3] emptyStore).attempted = 1 ∧
      (runOperator cfgForce envErrW [pW3] emptyStore).store.getMeta
          (getBatchKey [pW3]) = none :=
  ⟨by decide, by decide⟩

theorem checkClaude_transport_err (cfg : Config) :
    checkClaude cfg
      { timedOut := false, produced := true, apiRes := HttpRes.err,
        webRes := HttpRes.err } = false := by
  unfold checkClaude checkAnthropicAPI checkClaudeWeb
  cases cfg.mode <;> rfl

/-- C5 (amended): the single-target operators treat a transport-level probe
failure as a negative verdict and cache it like any failure — the record is
written with `ok=false` and `tries` incremented; the "inconclusive, not
cached" behaviour holds only in the dual-check variant with the
`fully_checked` rule, where a transport failure on a target prevents the
node's cache write entirely. -/
theorem transport_failure_caching :
    (∀ (cfg : Config) (st : Store) (marks : List (Option Bool)) (att i : Nat)
      (t : Task),
      taskStep cfg
        { timedOut := false, produced := true, apiRes := HttpRes.err,
          webRes := HttpRes.err } (st, marks, att) (i, t) =
        ((if cfg.useCache then
            st.setRec t.cacheKey
              { ok := false, tries := some (t.tries + 1), ts := cfg.now,
                denied := false }
          else st), marks.set i (some false), att + 1)) ∧
    (∀ (useCache : Bool) (store : List (String × DualRes)) (key name : String)
      (gemRes : HttpResB),
      v13TaskCache useCache store key
        (performNetworkCheck name HttpResB.err gemRes) = store) := by
  constructor
  · intro cfg st marks att i t
    unfold taskStep
    simp [checkClaude_transport_err cfg]
  · intro useCache store key name gemRes
    unfold v13TaskCache performNetworkCheck checkGPTv13
    simp

/-- C5 counterexample: under the default configuration, a fresh node whose
probe fails at the transport level on both endpoints does have its Decision
Record written: `ok=false` and `tries` bumped from 0 to 1 — contrary to the
claim that transport failures are never cached as negative verdicts. -/
theorem transport_failure_caching_counterexample :
    (runOperator cfgBase envErrW [pW3] emptyStore).store.getRec
        (getProxyCacheKey pW3) =
      some { ok := false, tries := some 1, ts := 7, denied := false } := by
  decide

theorem phase1Step_denied (cfg : Config) (s : Store) (p : Proxy)
    (hd : denyHit cfg p = true) :
    (phase1Step cfg s p).2 = (some false, none) := by
  unfold phase1Step
  simp [hd]

theorem phase1Go_all_denied (cfg : Config) :
    ∀ (ps : List Proxy) (idx : Nat) (s : Store),
      (∀ p ∈ ps, denyHit cfg p = true) →
      (phase1Go cfg idx s ps).2.1 = ps.map (fun _ => some false) ∧
        (phase1Go cfg idx s ps).2.2 = []
  | [], _, _, _ => ⟨rfl, rfl⟩
  | p :: rest, idx, s, hd => by
    have h2 := phase1Step_denied cfg s p (hd p (by simp))
    have h21 : (phase1Step cfg s p).2.1 = some false := by rw [h2]
    have h22 : (phase1Step cfg s p).2.2 = none := by rw [h2]
    have ih := phase1Go_all_denied cfg rest (idx + 1) (phase1Step cfg s p).1
      (fun q hq => hd q (by simp [hq]))
    simp only [phase1Go, h21, h22]
    exact ⟨by simp [ih.1], by simp [ih.2]⟩

theorem zip_allFalse_filter (ps : List Proxy) :
    ((ps.zip (List.replicate ps.length (some false))).filter
      (fun pm => pm.2 == some true)).map (·.1) = [] := by
  induction ps with
  | nil => rfl
  | cons p rest ih =>
    simp [List.replicate_succ, List.zip_cons_cons, List.filter_cons, ih]

/-- C10: a node whose name matches the deny regular expression (force off)
is rejected by the loop and its record rewritten to
`ok=false, tries+1, denied=true` with no task created (hence no network
request); and an unlocked round in which every node is denied attempts no
probe, accepts nothing, and leaves the batch meta record unchanged. -/
theorem deny_rejects_and_caches :
    (∀ (cfg : Config) (s : Store) (p : Proxy), cfg.useCache = true →
      denyHit cfg p = true →
      phase1Step cfg s p =
        (s.setRec (getProxyCacheKey p)
          { ok := false,
            tries := some (priorTriesAt s (getProxyCacheKey p) + 1),
            ts := cfg.now, denied := true }, some false, none)) ∧
    (∀ (cfg : Config) (env : Nat → ProbeEnv) (proxies : List Proxy)
      (s : Store),
      shouldLock cfg (readBatchMeta cfg s (getBatchKey proxies)) = false →
      (∀ p ∈ proxies, denyHit cfg p = true) →
      (runOperator cfg env proxies s).tasks = [] ∧
        (runOperator cfg env proxies s).attempted = 0 ∧
        (runOperator cfg env proxies s).accepted = [] ∧
        (runOperator cfg env proxies s).store.getMeta (getBatchKey proxies) =
          s.getMeta (getBatchKey proxies)) := by
  constructor
  · intro cfg s p hc hd
    unfold phase1Step
    simp [hd, hc]
  · intro cfg env proxies s hsl hd
    have hph := phase1Go_all_denied cfg proxies 0 s hd
    unfold runOperator
    dsimp only
    rw [if_neg (by simp [hsl])]
    dsimp only
    rw [hph.1, hph.2]
    have hmetas :
        ((phase2 cfg env (phase1Go cfg 0 s proxies).1
          (proxies.map (fun _ => some false)) []).1).metas = s.metas := by
      rw [phase2_metas, phase1Go_metas]
    refine ⟨by simp, by simp [phase2], ?_, ?_⟩
    · simp [phase2, zip_allFalse_filter]
    · simp only [phase2, List.foldl_nil, updateMeta]
      rw [if_neg (by simp)]
      exact Store.getMeta_congr _ _ _ (by rw [phase1Go_metas])

set_option maxRecDepth 400000 in
/-- C10 witness: the deny sample configuration on a matching node: the
record write of the denied node, and a denied-only round that attempts
nothing. -/
theorem deny_rejects_and_caches_witness :
    cfgDeny.useCache = true ∧ denyHit cfgDeny pHKW = true ∧
      phase1Step cfgDeny emptyStore pHKW =
        (emptyStore.setRec (getProxyCacheKey pHKW)
          { ok := false,
            tries := some (priorTriesAt emptyStore (getProxyCacheKey pHKW) + 1),
            ts := cfgDeny.now, denied := true }, some false, none) ∧
      (runOperator cfgDeny envErrW [pHKW] emptyStore).attempted = 0 ∧
      (runOperator cfgDeny envErrW [pHKW] emptyStore).accepted = [] :=
  ⟨rfl, by decide,
    deny_rejects_and_caches.1 cfgDeny emptyStore pHKW rfl (by decide),
    (deny_rejects_and_caches.2 cfgDeny envErrW [pHKW] emptyStore (by decide)
      (by decide)).2.1,
    (deny_rejects_and_caches.2 cfgDeny envErrW [pHKW] emptyStore (by decide)
      (by decide)).2.2.1⟩

theorem execNext_running_le (n limit deadline now : Nat) (s : Sched)
    (h : s.running ≤ limit) :
    (execNext n limit deadline now s).running ≤ limit := by
  unfold execNext
  split
  · split <;> simpa using h
  · dsimp only
    have hm := Nat.min_le_right (n - s.idx) (limit - s.running)
    split <;> (dsimp only; omega)

theorem completeTask_running_le (n limit deadline now : Nat) (s : Sched)
    (h : s.running ≤ limit) :
    (completeTask n limit deadline now s).running ≤ limit := by
  unfold completeTask
  dsimp only
  split
  · dsimp only; omega
  · exact execNext_running_le n limit deadline now _ (by dsimp only; omega)

theorem schedStep_running_le (n limit deadline : Nat) (s : Sched) (now : Nat)
    (h : s.running ≤ limit) :
    (schedStep n limit deadline s now).running ≤ limit := by
  unfold schedStep
  split
  · exact h
  · exact completeTask_running_le n limit deadline now s h

theorem schedTraceFrom_bound (n limit deadline : Nat) :
    ∀ (events : List Nat) (s : Sched), s.running ≤ limit →
      (schedTraceFrom n limit deadline s events).all
        (fun st => decide (st.running ≤ limit)) = true
  | [], s, h => by simp [schedTraceFrom, h]
  | e :: rest, s, h => by
    simp only [schedTraceFrom, List.all_cons]
    rw [schedTraceFrom_bound n limit deadline rest _
      (schedStep_running_le n limit deadline s e h)]
    simp [h]

/-- C6: along every schedule of task completions (any task list length, any
deadline, any clock readings), every state the scheduler passes through has
at most `limit` tasks in flight: `running` never exceeds the concurrency
limit. -/
theorem scheduler_concurrency_bound (n limit deadline now0 : Nat)
    (events : List Nat) :
    (schedTrace n limit deadline now0 events).all
      (fun st => decide (st.running ≤ limit)) = true :=
  schedTraceFrom_bound n limit deadline events _
    (execNext_running_le n limit deadline now0 _ (Nat.zero_le limit))

theorem schedStep_idle (n limit deadline : Nat) (s : Sched) (now : Nat)
    (h : s.running = 0) : schedStep n limit deadline s now = s := by
  unfold schedStep
  simp [h]

theorem foldl_schedStep_idle (n limit deadline : Nat) :
    ∀ (events : List Nat) (s : Sched), s.running = 0 →
      events.foldl (schedStep n limit deadline) s = s
  | [], _, _ => rfl
  | e :: rest, s, h => by
    rw [List.foldl_cons, schedStep_idle n limit deadline s e h,
      foldl_schedStep_idle n limit deadline rest s h]

/-- C7: when the (nonzero) deadline already lies in the past at call time,
the scheduler starts zero tasks and resolves immediately, and stays resolved
through any later events. -/
theorem deadline_past_resolves_immediately (n limit deadline now0 : Nat)
    (events : List Nat) (h0 : 0 < deadline) (h1 : deadline < now0) :
    schedRun n limit deadline now0 events =
      { idx := 0, running := 0, resolved := true } := by
  unfold schedRun
  have hinit : execNext n limit deadline now0
      { idx := 0, running := 0, resolved := false } =
      { idx := 0, running := 0, resolved := true } := by
    unfold execNext timeUp
    simp [Nat.pos_iff_ne_zero.mp h0, h1]
  rw [hinit, foldl_schedStep_idle n limit deadline events _ rfl]

/-- C7 witness: numbers 10 (deadline) and 20 (clock at call). -/
theorem deadline_past_resolves_immediately_witness :
    0 < 10 ∧ 10 < 20 ∧
      schedRun 5 3 10 20 [25, 30] =
        { idx := 0, running := 0, resolved := true } :=
  ⟨by decide, by decide,
    deadline_past_resolves_immediately 5 3 10 20 [25, 30] (by decide)
      (by decide)⟩

end Loon
